import Mathlib

/-
Verification development for the gep-monitoring backend.

The definitions below are a shallow embedding of the JavaScript sources:
  * backend utils csv.js        : parseCsv, recordsToCsv
  * routes/export.routes.js     : GET /export/data.csv, GET /data, POST /data/upload
  * routes/metrics.routes.js    : GET /metrics, GET /metrics/summary

JavaScript numbers are modelled as an inductive type over the rationals
(`JsNum`), with NaN and the two infinities explicit; machine floating
point is idealised as exact rational arithmetic.  Timestamps handled by
the SQL layer are modelled as natural numbers (instants); timestamps
handled as text by the CSV layer are modelled as strings, with the
dayjs normalisation `dayjs.utc(s).toISOString()` abstracted as a
function parameter `normTs` since dayjs is an external library.
-/

deriving instance DecidableEq for Except

namespace GEP

/-! ### Characters, digits and whitespace -/

/-- Decimal digit test, `'0'..'9'`. -/
def isDigitB (c : Char) : Bool := '0' ≤ c && c ≤ '9'

/-- Hexadecimal digit test (used by the `parseInt` model). -/
def isHexDigitB (c : Char) : Bool :=
  isDigitB c || ('a' ≤ c && c ≤ 'f') || ('A' ≤ c && c ≤ 'F')

/-- Numeric value of a decimal digit character. -/
def digitVal (c : Char) : Nat := c.toNat - 48

/-- Numeric value of a hexadecimal digit character. -/
def hexDigitVal (c : Char) : Nat :=
  if 'a' ≤ c && c ≤ 'f' then c.toNat - 87
  else if 'A' ≤ c && c ≤ 'F' then c.toNat - 55
  else digitVal c

/-- The character for a decimal digit value. -/
def digitChar (d : Nat) : Char := Char.ofNat (48 + d)

/-- Whitespace skipped by the JavaScript `parseFloat` / `parseInt` prelude. -/
def jsWsB (c : Char) : Bool := c = ' ' || c = '\t' || c = '\n' || c = '\r'

/-- Whitespace removed by the csv-parse `trim: true` option. -/
def trimWsB (c : Char) : Bool := c = ' ' || c = '\t'

/-- Value of a big-endian list of decimal digit characters. -/
def charsToNat (l : List Char) : Nat := l.foldl (fun a c => 10 * a + digitVal c) 0

/-- Value of a big-endian list of hexadecimal digit characters. -/
def charsToNatHex (l : List Char) : Nat := l.foldl (fun a c => 16 * a + hexDigitVal c) 0

/-- Fuelled big-endian decimal rendering of a positive natural number. -/
def natToCharsAux : Nat → Nat → List Char
  | 0, _ => []
  | _ + 1, 0 => []
  | fuel + 1, n => natToCharsAux fuel (n / 10) ++ [digitChar (n % 10)]

/-- Big-endian decimal rendering of a natural number (JS `String(n)` style). -/
def natToChars (n : Nat) : List Char :=
  if n = 0 then ['0'] else natToCharsAux (n + 1) n

/-- Left-pad a digit string with zeros to a given width. -/
def padZeros (e : Nat) (l : List Char) : List Char :=
  List.replicate (e - l.length) '0' ++ l

/-- Drop trailing `'0'` characters (JS number printing omits them). -/
def dropTrailingZeros (l : List Char) : List Char :=
  (l.reverse.dropWhile (· = '0')).reverse

/-- Render the decimal number `m / 10^e` the way JavaScript stringifies the
corresponding number value: optional minus sign, integer digits, and a
fractional part with trailing zeros trimmed (omitted when zero). -/
def decToChars (m : Int) (e : Nat) : List Char :=
  let n := m.natAbs
  let i := n / 10 ^ e
  let f := n % 10 ^ e
  let fds := dropTrailingZeros (padZeros e (natToChars f))
  (if m < 0 then ['-'] else []) ++ natToChars i ++ (if fds.isEmpty then [] else '.' :: fds)

/-- String form of `decToChars`. -/
def decToString (m : Int) (e : Nat) : String := ⟨decToChars m e⟩

/-- The rational value denoted by `m / 10^e`. -/
def decVal (m : Int) (e : Nat) : ℚ := (m : ℚ) / 10 ^ e

/-! ### JavaScript numbers, `parseFloat` and `parseInt` -/

/-- A JavaScript number: NaN, the infinities, or a finite value (idealised
as a rational). -/
inductive JsNum
  | nan
  | inf
  | neginf
  | fin (q : ℚ)
deriving DecidableEq, Repr

/-- Is the number finite? -/
def JsNum.isFinite : JsNum → Bool
  | .fin _ => true
  | _ => false

/-- Leading sign of a JS numeric literal: strip one `'-'` or `'+'`,
reporting whether the value is negated. -/
def splitSign : List Char → Bool × List Char
  | '-' :: r => (true, r)
  | '+' :: r => (false, r)
  | l => (false, l)

/-- Exponent suffix of a JS float literal: optional sign and digits.
If no digits follow, the exponent does not participate (JS takes the
longest valid literal prefix, so `"1e"` parses as `1`). -/
def jsExpVal (l : List Char) : ℤ :=
  let p := splitSign l
  let ds := p.2.takeWhile isDigitB
  if ds.isEmpty then 0 else (if p.1 then -1 else 1) * (charsToNat ds : ℤ)

/-- The part of `parseFloat` after whitespace and sign: the literal
`Infinity`, or `digits [. digits] [e/E exponent]` as the longest valid
prefix; NaN when no prefix parses. -/
def jsParseFloatAfterSign (neg : Bool) (l2 : List Char) : JsNum :=
  if l2.take 8 = ['I', 'n', 'f', 'i', 'n', 'i', 't', 'y'] then
    if neg then .neginf else .inf
  else
    let ints := l2.takeWhile isDigitB
    let r1 := l2.dropWhile isDigitB
    let q : List Char × List Char :=
      match r1 with
      | '.' :: r => (r.takeWhile isDigitB, r.dropWhile isDigitB)
      | _ => ([], r1)
    let fracs := q.1
    let r2 := q.2
    if ints.isEmpty && fracs.isEmpty then .nan
    else
      let mant : ℚ := (charsToNat ints : ℚ) + (charsToNat fracs : ℚ) / 10 ^ fracs.length
      let ex : ℤ :=
        match r2 with
        | 'e' :: rest => jsExpVal rest
        | 'E' :: rest => jsExpVal rest
        | _ => 0
      .fin ((if neg then -1 else 1) * mant * (10 : ℚ) ^ ex)

/-- Model of JavaScript `parseFloat` on a character list: skip leading
whitespace, optional sign, then the literal body. -/
def jsParseFloatChars (l : List Char) : JsNum :=
  let p := splitSign (l.dropWhile jsWsB)
  jsParseFloatAfterSign p.1 p.2

/-- `parseFloat` on a string. -/
def jsParseFloat (s : String) : JsNum := jsParseFloatChars s.data

/-- Model of JavaScript `parseInt` with no radix argument: skip leading
whitespace, optional sign, auto-detected hexadecimal on a `0x`/`0X`
prefix, otherwise leading decimal digits; `none` models NaN.  The
argument is an `Option String`, `none` standing for an absent query
parameter (JS `undefined`, which `parseInt` maps to NaN). -/
def jsParseInt (s? : Option String) : Option ℤ :=
  match s? with
  | none => none
  | some s =>
    let p := splitSign (s.data.dropWhile jsWsB)
    let sgn : ℤ := if p.1 then -1 else 1
    match p.2 with
    | '0' :: 'x' :: r =>
      let ds := r.takeWhile isHexDigitB
      if ds.isEmpty then none else some (sgn * charsToNatHex ds)
    | '0' :: 'X' :: r =>
      let ds := r.takeWhile isHexDigitB
      if ds.isEmpty then none else some (sgn * charsToNatHex ds)
    | l2 =>
      let ds := l2.takeWhile isDigitB
      if ds.isEmpty then none else some (sgn * (charsToNat ds : ℤ))

/-! ### The csv-parse model

`parseCsv` in `utils/csv.js` pipes the file through the csv-parse library
configured with `columns: true, skip_empty_lines: true, trim: true`.  The
scanner below models that tokenizer: comma-delimited fields, `"`‑quoted
fields with `""` escapes, `'\n'` record delimiters (the renderer and the
bundled files use LF), empty lines skipped, unquoted fields trimmed.  A
malformed stream (stray or unterminated quote, inconsistent column
count) is an error, mirroring the stream `error` event that rejects the
whole parse. -/

/-- Errors raised by the CSV tokenizer / column binding. -/
inductive CsvErr
  | unterminatedQuote
  | strayQuote
  | invalidClosingQuote
  | badRecordLength
deriving DecidableEq, Repr

/-- Quoting state of the CSV scanner. -/
inductive QState
  | plain
  | quoted
  | afterQuote
deriving DecidableEq, Repr

/-- csv-parse `trim: true`: strip spaces and tabs from both ends of an
unquoted field. -/
def trimChars (l : List Char) : List Char :=
  ((l.dropWhile trimWsB).reverse.dropWhile trimWsB).reverse

/-- One-pass CSV tokenizer.  Arguments: remaining input, quoting state,
current field (reversed nowhere — kept in order), fields of the current
record, completed records. -/
def csvScanAux : List Char → QState → List Char → List String → List (List String) →
    Except CsvErr (List (List String))
  | [], .plain, f, r, recs =>
    if f.isEmpty && r.isEmpty then .ok recs else .ok (recs ++ [r ++ [⟨trimChars f⟩]])
  | [], .quoted, _, _, _ => .error .unterminatedQuote
  | [], .afterQuote, f, r, recs => .ok (recs ++ [r ++ [⟨f⟩]])
  | ',' :: rest, .plain, f, r, recs => csvScanAux rest .plain [] (r ++ [⟨trimChars f⟩]) recs
  | '\n' :: rest, .plain, f, r, recs =>
    if f.isEmpty && r.isEmpty then csvScanAux rest .plain [] [] recs
    else csvScanAux rest .plain [] [] (recs ++ [r ++ [⟨trimChars f⟩]])
  | '"' :: rest, .plain, f, r, recs =>
    if f.isEmpty then csvScanAux rest .quoted [] r recs else .error .strayQuote
  | c :: rest, .plain, f, r, recs => csvScanAux rest .plain (f ++ [c]) r recs
  | '"' :: '"' :: rest, .quoted, f, r, recs => csvScanAux rest .quoted (f ++ ['"']) r recs
  | '"' :: rest, .quoted, f, r, recs => csvScanAux rest .afterQuote f r recs
  | c :: rest, .quoted, f, r, recs => csvScanAux rest .quoted (f ++ [c]) r recs
  | ',' :: rest, .afterQuote, f, r, recs => csvScanAux rest .plain [] (r ++ [⟨f⟩]) recs
  | '\n' :: rest, .afterQuote, f, r, recs => csvScanAux rest .plain [] [] (recs ++ [r ++ [⟨f⟩]])
  | _ :: _, .afterQuote, _, _, _ => .error .invalidClosingQuote

/-- Tokenize a CSV string into records of fields. -/
def csvScan (s : String) : Except CsvErr (List (List String)) :=
  csvScanAux s.data .plain [] [] []

/-- A data row bound to column names (csv-parse `columns: true`): the
header names zipped with the row's fields. -/
abbrev CsvRow := List (String × String)

/-- Bind records to the header row.  csv-parse (with the default
`relax_column_count: false`) rejects a record whose field count differs
from the header's. -/
def csvRows (s : String) : Except CsvErr (List CsvRow) :=
  match csvScan s with
  | .error e => .error e
  | .ok [] => .ok []
  | .ok (hdr :: data) =>
    if data.all (fun row => row.length = hdr.length) then
      .ok (data.map (fun row => hdr.zip row))
    else .error .badRecordLength

/-- JS property access `data[k]` on a row object, stringified: an absent
column reads as `undefined`, modelled by the string it stringifies to. -/
def lookupD (row : CsvRow) (k : String) : String :=
  match List.find? (fun p => p.1 = k) row with
  | some p => p.2
  | none => "undefined"

/-! ### parseCsv (utils/csv.js) -/

/-- A validated ingest record: normalised timestamp text and the parsed
consumption number (never NaN; may be infinite, since the source only
checks `isNaN`). -/
structure IngestRecord where
  timestamp : String
  consumption : JsNum
deriving DecidableEq, Repr

/-- Per-row processing of the `data` event handler in `parseCsv`:
normalise the timestamp with dayjs (abstracted as `normTs`), parse the
consumption with `parseFloat`, and drop the row (with a warning) exactly
when the result is NaN. -/
def parseRow (normTs : String → String) (row : CsvRow) : Option IngestRecord :=
  let ts := normTs (lookupD row ("timestamp"))
  let c := jsParseFloat (lookupD row ("consumption"))
  if c = .nan then none else some ⟨ts, c⟩

/-- `parseCsv`: tokenize and bind columns, then keep the rows that pass
the consumption check, in source order.  A malformed stream rejects the
whole parse; an invalid row never does. -/
def parseCsv (normTs : String → String) (s : String) : Except CsvErr (List IngestRecord) :=
  (csvRows s).map (List.filterMap (parseRow normTs))

/-! ### recordsToCsv (utils/csv.js) -/

/-- A field value of a record passed to `recordsToCsv`: a string, or a
number written `m / 10^e`. -/
inductive Field
  | str (s : String)
  | num (m : Int) (e : Nat)
deriving DecidableEq, Repr

/-- A JS record object: association of header names to field values. -/
abbrev RecordObj := List (String × Field)

/-- `record[header]` lookup. -/
def recLookup (r : RecordObj) (h : String) : Option Field :=
  (List.find? (fun p => p.1 = h) r).map (fun p => p.2)

/-- JS `value.includes(c)` on strings. -/
def jsIncludes (s : String) (c : Char) : Bool := s.data.contains c

/-- JS `value.replace(/"/g, '""')`: double every double-quote. -/
def doubleQuotes (s : String) : String :=
  ⟨s.data.flatMap (fun c => if c = '"' then ['"', '"'] else [c])⟩

/-- The cell emitted for one field value, as in the `recordsToCsv` map:
a string containing a comma or a quote is wrapped in quotes with inner
quotes doubled; any other string is emitted as is; a number is
stringified by `Array.join`; a missing field (`undefined`) joins as the
empty string. -/
def renderCell (v : Option Field) : String :=
  match v with
  | none => ""
  | some (.str s) =>
    if jsIncludes s ',' || jsIncludes s '"' then "\"" ++ doubleQuotes s ++ "\"" else s
  | some (.num m e) => decToString m e

/-- `Array.join(',')`. -/
def joinComma : List String → String
  | [] => ""
  | [x] => x
  | x :: xs => x ++ "," ++ joinComma xs

/-- `Array.join('\n')`. -/
def joinNl : List String → String
  | [] => ""
  | [x] => x
  | x :: xs => x ++ "\n" ++ joinNl xs

/-- `recordsToCsv(records, headers)`: header line, then one line per
record with each header's cell rendered by the escaping rule. -/
def recordsToCsv (records : List RecordObj) (headers : List String) : String :=
  joinNl (joinComma headers ::
    records.map (fun r => joinComma (headers.map (fun h => renderCell (recLookup r h)))))

/-! ### The reading store

A row of the `energy_data` table.  The SQL layer compares and orders
`TIMESTAMPTZ` values as instants, modelled as naturals; `DOUBLE
PRECISION` consumption is idealised as a rational. -/

structure Reading where
  id : Nat
  ts : Nat
  consumption : ℚ
deriving DecidableEq, Repr

/-- `ORDER BY timestamp ASC`. -/
def tsAsc (a b : Reading) : Prop := a.ts ≤ b.ts

/-- `ORDER BY timestamp DESC`. -/
def tsDesc (a b : Reading) : Prop := b.ts ≤ a.ts

instance : DecidableRel tsAsc := fun a b => Nat.decLe a.ts b.ts

instance : DecidableRel tsDesc := fun a b => Nat.decLe b.ts a.ts

instance : IsTotal Reading tsAsc := ⟨fun a b => Nat.le_total a.ts b.ts⟩

instance : IsTrans Reading tsAsc := ⟨fun _ _ _ h h' => Nat.le_trans h h'⟩

instance : IsTotal Reading tsDesc := ⟨fun a b => (Nat.le_total b.ts a.ts).symm.imp id id |>.symm⟩

instance : IsTrans Reading tsDesc := ⟨fun _ _ _ h h' => Nat.le_trans h' h⟩

/-- The `WHERE` clause shared by `GET /data` and the CSV exporter:
`timestamp >= from` and `timestamp <= to`, each only when provided. -/
def filterRange (store : List Reading) (fromQ toQ : Option Nat) : List Reading :=
  store.filter (fun r =>
    (match fromQ with | some f => decide (f ≤ r.ts) | none => true) &&
    (match toQ with | some t => decide (r.ts ≤ t) | none => true))

/-! ### GET /data (export.routes.js) -/

/-- The JSON body of a successful `GET /data` response. -/
structure DataResp where
  data : List Reading
  count : Nat
  limit : ℤ
  page : ℤ
  total : Nat
  totalPages : Nat
deriving DecidableEq, Repr

/-- `GET /data`: resolve `limit` (default 100 when `parseInt` yields NaN
or `0`, then a 400 when out of 1..10000) and `page` (clamped to at least
1), count the filtered rows, and return the requested page of rows
ordered by timestamp descending. -/
def getData (store : List Reading) (fromQ toQ : Option Nat) (limitQ pageQ : Option String) :
    Except String DataResp :=
  let limit : ℤ :=
    match jsParseInt limitQ with
    | none => 100
    | some n => if n = 0 then 100 else n
  let page : ℤ :=
    match jsParseInt pageQ with
    | none => 1
    | some p => if p = 0 then 1 else if p < 1 then 1 else p
  if limit < 1 ∨ limit > 10000 then .error ("Limit must be between 1 and 10000")
  else
    let filtered := filterRange store fromQ toQ
    let total := filtered.length
    let offset := ((page - 1) * limit).toNat
    let rows := ((filtered.insertionSort tsDesc).drop offset).take limit.toNat
    let totalPages := (total + limit.toNat - 1) / limit.toNat
    .ok ⟨rows, rows.length, limit, page, total, totalPages⟩

/-! ### GET /export/data.csv (export.routes.js) -/

/-- The row list rendered by `GET /export/data.csv`: filtered rows in
ascending timestamp order, truncated only when a `limit` query parses to
a number in 1..100000. -/
def exportDataRows (store : List Reading) (fromQ toQ : Option Nat) (limitQ : Option String) :
    List Reading :=
  let sorted := (filterRange store fromQ toQ).insertionSort tsAsc
  match jsParseInt limitQ with
  | some n => if 0 < n ∧ n ≤ 100000 then sorted.take n.toNat else sorted
  | none => sorted

/-- A row of the exported CSV as handed to `recordsToCsv`: the
timestamp's text form and the consumption number written `m / 10^e`. -/
structure ExportRow where
  ts : String
  m : Int
  e : Nat
deriving DecidableEq, Repr

/-- The record object built for one exported row. -/
def exportRowObj (r : ExportRow) : RecordObj :=
  [(("timestamp"), .str r.ts), (("consumption"), .num r.m r.e)]

/-- The CSV text produced by `GET /export/data.csv` for a snapshot. -/
def exportDataCsv (rows : List ExportRow) : String :=
  recordsToCsv (rows.map exportRowObj) [("timestamp"), ("consumption")]

/-! ### POST /data/upload (export.routes.js) -/

/-- Fuelled partition into chunks of `n` (structural, so that it
evaluates in the kernel). -/
def chunksOfAux (n : Nat) : Nat → List α → List (List α)
  | _, [] => []
  | 0, _ => []
  | fuel + 1, x :: xs => (x :: xs).take n :: chunksOfAux n fuel ((x :: xs).drop n)

/-- Partition a list into consecutive chunks of size `n` (the last chunk
may be shorter). -/
def chunksOf (n : Nat) (l : List α) : List (List α) := chunksOfAux n l.length l

/-- The JSON body of a successful `POST /data/upload` response. -/
structure UploadResp where
  records_processed : Nat
  records_inserted : Nat
deriving DecidableEq, Repr

/-- `POST /data/upload`: parse the file, reject an empty record set with
a 400, then bulk-insert in chunks of 1000 accumulating each chunk's
inserted-row count.  The database insert (`INSERT ... ON CONFLICT DO
NOTHING`, whose `rowCount` never exceeds the chunk size) is abstracted
as the function argument `insert`. -/
def uploadCsv (normTs : String → String) (insert : List IngestRecord → Nat) (s : String) :
    Except String UploadResp :=
  match parseCsv normTs s with
  | .error _ => .error ("Failed to process uploaded file")
  | .ok records =>
    if records.length = 0 then .error ("No valid records found in CSV")
    else .ok ⟨records.length, ((chunksOf 1000 records).map insert).sum⟩

/-! ### GET /metrics and GET /metrics/summary (metrics.routes.js) -/

/-- `Math.round(x * 100) / 100`: round to 2 decimals, halves toward
positive infinity (JS `Math.round` semantics). -/
def round2 (q : ℚ) : ℚ := (⌊q * 100 + 1 / 2⌋ : ℚ) / 100

/-- `Math.round(x * 100) / 100` over the reals (for the stddev field). -/
noncomputable def round2R (x : ℝ) : ℝ := (⌊x * 100 + 1 / 2⌋ : ℝ) / 100

/-- The consumption column of the store. -/
def consumptions (store : List Reading) : List ℚ := store.map (·.consumption)

/-- SQL `MAX` over a column: `NULL` on no rows. -/
def sqlMaxQ : List ℚ → Option ℚ
  | [] => none
  | x :: xs => some (xs.foldl max x)

/-- SQL `MIN` over a column: `NULL` on no rows. -/
def sqlMinQ : List ℚ → Option ℚ
  | [] => none
  | x :: xs => some (xs.foldl min x)

/-- SQL `MIN(timestamp)` / earliest instant. -/
def sqlMinTs : List Reading → Option Nat
  | [] => none
  | r :: rs => some ((rs.map (·.ts)).foldl min r.ts)

/-- SQL `MAX(timestamp)` / latest instant. -/
def sqlMaxTs : List Reading → Option Nat
  | [] => none
  | r :: rs => some ((rs.map (·.ts)).foldl max r.ts)

/-- The row preferred by `ORDER BY consumption DESC, timestamp DESC`:
larger consumption wins, equal consumption resolved toward the more
recent timestamp. -/
def peakPick (a b : Reading) : Reading :=
  if a.consumption < b.consumption ∨ (b.consumption = a.consumption ∧ a.ts < b.ts) then b else a

/-- The `LIMIT 1` row of the `peak` lateral subquery (`NULL` join result
on an empty table). -/
def peakRow : List Reading → Option Reading
  | [] => none
  | r :: rs => some (rs.foldl peakPick r)

/-- The SQL aggregate row computed by `GET /metrics` (`COALESCE`d to 0,
before the response-boundary rounding). -/
structure AggRow where
  count_points : Nat
  total_consumption : ℚ
  avg_consumption : ℚ
  peak_consumption : ℚ
  peak_timestamp : Option Nat
deriving DecidableEq, Repr

/-- The aggregate query of `GET /metrics`: `COUNT(*)`,
`COALESCE(SUM(consumption), 0)`, `COALESCE(AVG(consumption), 0)`,
`COALESCE(MAX(consumption), 0)`, and the peak lateral row. -/
def aggMetricsSql (store : List Reading) : AggRow :=
  { count_points := store.length
    total_consumption := (consumptions store).sum
    avg_consumption :=
      if store.length = 0 then 0 else (consumptions store).sum / store.length
    peak_consumption := (sqlMaxQ (consumptions store)).getD 0
    peak_timestamp := (peakRow store).map (·.ts) }

/-- The JSON body of `GET /metrics`. -/
structure MetricsResp where
  count_points : Nat
  total_consumption : ℚ
  avg_consumption : ℚ
  peak_consumption : ℚ
  peak_timestamp : Option Nat
deriving DecidableEq, Repr

/-- `GET /metrics`: the aggregate row with every consumption figure
rounded to 2 decimals at the response boundary. -/
def getMetrics (store : List Reading) : MetricsResp :=
  let r := aggMetricsSql store
  { count_points := r.count_points
    total_consumption := round2 r.total_consumption
    avg_consumption := round2 r.avg_consumption
    peak_consumption := round2 r.peak_consumption
    peak_timestamp := r.peak_timestamp }

/-- Sample variance (`STDDEV` divides by N−1). -/
def sampleVariance (l : List ℚ) : ℚ :=
  let n := l.length
  let mean := l.sum / n
  (l.map (fun x => (x - mean) ^ 2)).sum / (n - 1 : ℕ)

/-- SQL `STDDEV(consumption)`: `NULL` for fewer than two rows, else the
sample standard deviation. -/
noncomputable def sqlStddev (l : List ℚ) : Option ℝ :=
  if l.length ≤ 1 then none else some (Real.sqrt (sampleVariance l))

/-- The JSON body of `GET /metrics/summary`. -/
structure SummaryResp where
  earliest_timestamp : Option Nat
  latest_timestamp : Option Nat
  min_consumption : ℚ
  max_consumption : ℚ
  consumption_stddev : ℝ
  days_of_data : Nat

/-- `DATE(timestamp)` at UTC: the calendar day of an instant, with
86400 seconds per day. -/
def dateOf (ts : Nat) : Nat := ts / 86400

/-- `GET /metrics/summary`: timestamp bounds, `COALESCE`d min/max,
rounded `COALESCE(STDDEV(consumption), 0)`, and the distinct-day
count `COUNT(DISTINCT DATE(timestamp))`. -/
noncomputable def getMetricsSummary (store : List Reading) : SummaryResp :=
  { earliest_timestamp := sqlMinTs store
    latest_timestamp := sqlMaxTs store
    min_consumption := (sqlMinQ (consumptions store)).getD 0
    max_consumption := (sqlMaxQ (consumptions store)).getD 0
    consumption_stddev := round2R (((sqlStddev (consumptions store)).getD 0 : ℝ))
    days_of_data := ((store.map (fun r => dateOf r.ts)).dedup).length }

/-! ### Auxiliary definitions used only to state the claims -/

/-- The raw (pre-escaping) string form of a field value, as JS
stringifies it into the joined row. -/
def rawCell : Option Field → String
  | none => ""
  | some (.str s) => s
  | some (.num m e) => decToString m e

/-- A timestamp string that is inert for the CSV layer: none of the
tokenizer's significant characters (comma, quote, LF — CR excluded too,
since csv-parse would treat it as part of a CRLF delimiter), and stable
under the `trim: true` field trimming. -/
def cleanTs (s : String) : Prop :=
  (∀ c ∈ s.data, ¬(c = ',' ∨ c = '"' ∨ c = '\n' ∨ c = '\r')) ∧ trimChars s.data = s.data

instance (s : String) : Decidable (cleanTs s) := by
  unfold cleanTs; infer_instance

/-- The lexicographic preference order realised by
`ORDER BY consumption DESC, timestamp DESC LIMIT 1`. -/
def peakLe (a b : Reading) : Prop :=
  a.consumption < b.consumption ∨ (a.consumption = b.consumption ∧ a.ts ≤ b.ts)

/-- The ingest record produced for an export row when the CSV round
trip succeeds. -/
def roundTripRecord (r : ExportRow) : IngestRecord :=
  ⟨r.ts, .fin (decVal r.m r.e)⟩

/-! ## Helper lemmas: characters, digit strings and rendering -/

theorem dropWhile_eq_self_of_all {p : Char → Bool} {l : List Char}
    (h : ∀ c ∈ l, p c = false) : l.dropWhile p = l := by
  cases l with
  | nil => rfl
  | cons c t => simp [List.dropWhile, h c (by simp)]

theorem takeWhile_append_all {p : Char → Bool} {ds : List Char} (rest : List Char)
    (h : ∀ c ∈ ds, p c = true) : (ds ++ rest).takeWhile p = ds ++ rest.takeWhile p := by
  induction ds with
  | nil => simp
  | cons c t ih =>
    simp only [List.cons_append, List.takeWhile, h c (by simp)]
    simp [ih fun c hc => h c (by simp [hc])]

theorem dropWhile_append_all {p : Char → Bool} {ds : List Char} (rest : List Char)
    (h : ∀ c ∈ ds, p c = true) : (ds ++ rest).dropWhile p = rest.dropWhile p := by
  induction ds with
  | nil => simp
  | cons c t ih =>
    simp only [List.cons_append, List.dropWhile, h c (by simp)]
    exact ih fun c hc => h c (by simp [hc])

theorem trimChars_eq_self {l : List Char} (h : ∀ c ∈ l, trimWsB c = false) :
    trimChars l = l := by
  unfold trimChars
  rw [dropWhile_eq_self_of_all h, dropWhile_eq_self_of_all (by simpa using h), List.reverse_reverse]

theorem charsToNat_foldl (l : List Char) (a : Nat) :
    l.foldl (fun a c => 10 * a + digitVal c) a = a * 10 ^ l.length + charsToNat l := by
  induction l generalizing a with
  | nil => simp [charsToNat]
  | cons c t ih =>
    simp only [List.foldl_cons, List.length_cons, charsToNat]
    rw [ih, ih (10 * 0 + digitVal c)]
    ring

theorem charsToNat_append_one (l : List Char) (c : Char) :
    charsToNat (l ++ [c]) = 10 * charsToNat l + digitVal c := by
  unfold charsToNat
  rw [List.foldl_append, charsToNat_foldl]
  simp [charsToNat]
  ring

theorem charsToNat_replicate_zero (k : Nat) (l : List Char) :
    charsToNat (List.replicate k '0' ++ l) = charsToNat l := by
  induction k with
  | zero => simp
  | succ n ih => simpa [charsToNat, List.replicate_succ, digitVal] using ih

theorem digitVal_digitChar {d : Nat} (h : d < 10) : digitVal (digitChar d) = d := by
  interval_cases d <;> decide

theorem isDigitB_digitChar {d : Nat} (h : d < 10) : isDigitB (digitChar d) = true := by
  interval_cases d <;> decide

theorem charsToNat_natToCharsAux : ∀ fuel n, n < fuel → charsToNat (natToCharsAux fuel n) = n := by
  intro fuel
  induction fuel with
  | zero => intro n h; omega
  | succ fuel ih =>
    intro n h
    match n with
    | 0 => simp [natToCharsAux, charsToNat]
    | k + 1 =>
      rw [natToCharsAux, charsToNat_append_one,
        ih ((k + 1) / 10) (by omega),
        digitVal_digitChar (Nat.mod_lt _ (by omega))]
      · omega
      · omega

theorem charsToNat_natToChars (n : Nat) : charsToNat (natToChars n) = n := by
  unfold natToChars
  by_cases h : n = 0
  · simp [h, charsToNat, digitVal]
  · simp only [h, if_false]
    exact charsToNat_natToCharsAux _ _ (by omega)

theorem natToCharsAux_digits : ∀ fuel n, ∀ c ∈ natToCharsAux fuel n, isDigitB c = true := by
  intro fuel
  induction fuel with
  | zero => intro n c hc; simp [natToCharsAux] at hc
  | succ fuel ih =>
    intro n c hc
    match n with
    | 0 => simp [natToCharsAux] at hc
    | k + 1 =>
      rw [natToCharsAux] at hc
      case x_2 => omega
      rcases List.mem_append.1 hc with h | h
      · exact ih _ _ h
      · simp at h
        rw [h]
        exact isDigitB_digitChar (Nat.mod_lt _ (by omega))

theorem natToChars_digits (n : Nat) : ∀ c ∈ natToChars n, isDigitB c = true := by
  intro c hc
  unfold natToChars at hc
  by_cases h : n = 0
  · simp [h] at hc; rw [hc]; decide
  · simp only [h, if_false] at hc
    exact natToCharsAux_digits _ _ _ hc

theorem natToChars_ne_nil (n : Nat) : natToChars n ≠ [] := by
  unfold natToChars
  by_cases h : n = 0
  · simp [h]
  · simp only [h, if_false]
    match n, h with
    | k + 1, _ =>
      rw [natToCharsAux]
      · simp
      · omega

theorem natToCharsAux_length : ∀ fuel n k, n < 10 ^ k → (natToCharsAux fuel n).length ≤ k := by
  intro fuel
  induction fuel with
  | zero => intro n k _; simp [natToCharsAux]
  | succ fuel ih =>
    intro n k hn
    match n with
    | 0 => simp [natToCharsAux]
    | m + 1 =>
      rw [natToCharsAux]
      case x_2 => omega
      match k with
      | 0 => simp at hn
      | j + 1 =>
        have hd : (m + 1) / 10 < 10 ^ j := by
          rw [Nat.div_lt_iff_lt_mul (by omega)]
          calc m + 1 < 10 ^ (j + 1) := hn
          _ = 10 ^ j * 10 := by ring
        have := ih ((m + 1) / 10) j hd
        simp only [List.length_append, List.length_cons, List.length_nil]
        omega

theorem natToChars_length_le {n e : Nat} (hn : n < 10 ^ e) (he : 1 ≤ e) :
    (natToChars n).length ≤ e := by
  unfold natToChars
  by_cases h : n = 0
  · simp [h]; omega
  · simp only [h, if_false]
    exact natToCharsAux_length _ _ _ hn

theorem padZeros_length {e : Nat} {l : List Char} (h : l.length ≤ e) :
    (padZeros e l).length = e := by
  simp [padZeros]
  omega

theorem charsToNat_padZeros (e : Nat) (l : List Char) :
    charsToNat (padZeros e l) = charsToNat l :=
  charsToNat_replicate_zero _ _

theorem padZeros_digits {e : Nat} {l : List Char} (h : ∀ c ∈ l, isDigitB c = true) :
    ∀ c ∈ padZeros e l, isDigitB c = true := by
  intro c hc
  rcases List.mem_append.1 hc with hm | hm
  · rw [List.eq_of_mem_replicate hm]; decide
  · exact h c hm

theorem dropTrailingZeros_subset {l : List Char} : ∀ c ∈ dropTrailingZeros l, c ∈ l := by
  intro c hc
  unfold dropTrailingZeros at hc
  rw [List.mem_reverse] at hc
  have := (List.dropWhile_sublist (l := l.reverse) (· = '0')).mem hc
  rwa [List.mem_reverse] at this

theorem charsToNat_append_zero (l : List Char) :
    charsToNat (l ++ ['0']) = 10 * charsToNat l := by
  rw [charsToNat_append_one]
  simp [digitVal]

theorem fracVal_dropTrailingZeros (l : List Char) :
    (charsToNat (dropTrailingZeros l) : ℚ) / 10 ^ (dropTrailingZeros l).length =
      (charsToNat l : ℚ) / 10 ^ l.length := by
  unfold dropTrailingZeros
  generalize hrl : l.reverse = rl
  have hl : l = rl.reverse := by rw [← hrl, List.reverse_reverse]
  subst hl
  clear hrl
  induction rl with
  | nil => simp
  | cons c t ih =>
    by_cases hc : c = '0'
    · subst hc
      rw [List.dropWhile_cons_of_pos (by simp)]
      rw [ih]
      simp only [List.reverse_cons, List.length_append, List.length_reverse,
        List.length_cons, List.length_nil, charsToNat_append_zero]
      push_cast
      rw [pow_succ]
      have h10 : ((10 : ℚ) ^ t.reverse.length) ≠ 0 := by positivity
      field_simp
      ring
    · rw [List.dropWhile_cons_of_neg (by simpa using hc)]

theorem charsToNat_eq_zero_of_dropTrailingZeros_nil {l : List Char}
    (h : dropTrailingZeros l = []) : charsToNat l = 0 := by
  have := fracVal_dropTrailingZeros l
  rw [h] at this
  simp [charsToNat] at this
  have h10 : ((10 : ℚ) ^ l.length) ≠ 0 := by positivity
  field_simp at this
  exact_mod_cast this.symm

theorem decToChars_eq (m : Int) (e : Nat) :
    decToChars m e =
      (if m < 0 then ['-'] else []) ++ natToChars (m.natAbs / 10 ^ e) ++
        (if (dropTrailingZeros (padZeros e (natToChars (m.natAbs % 10 ^ e)))).isEmpty then []
         else '.' :: dropTrailingZeros (padZeros e (natToChars (m.natAbs % 10 ^ e)))) := rfl

theorem decToChars_charset {m : Int} {e : Nat} :
    ∀ c ∈ decToChars m e, isDigitB c = true ∨ c = '-' ∨ c = '.' := by
  intro c hc
  rw [decToChars_eq] at hc
  simp only [List.mem_append] at hc
  rcases hc with (hc | hc) | hc
  · right; left
    rcases em (m < 0) with h | h <;> simp [h] at hc
    exact hc
  · exact Or.inl (natToChars_digits _ _ hc)
  · by_cases h : (dropTrailingZeros (padZeros e (natToChars (m.natAbs % 10 ^ e)))).isEmpty
    · simp [h] at hc
    · rw [if_neg h] at hc
      rcases List.mem_cons.1 hc with h1 | h1
      · right; right; exact h1
      · exact Or.inl (padZeros_digits (natToChars_digits _) _ (dropTrailingZeros_subset _ h1))

theorem decToChars_ne_nil (m : Int) (e : Nat) : decToChars m e ≠ [] := by
  rw [decToChars_eq]
  intro h
  rcases List.append_eq_nil.1 h with ⟨h1, _⟩
  rcases List.append_eq_nil.1 h1 with ⟨_, h3⟩
  exact natToChars_ne_nil _ h3

theorem takeWhile_eq_self_of_all {p : Char → Bool} {ds : List Char}
    (h : ∀ c ∈ ds, p c = true) : ds.takeWhile p = ds := by
  have h2 := takeWhile_append_all (p := p) ([] : List Char) h
  simpa using h2

theorem dropWhile_eq_nil_of_all {p : Char → Bool} {ds : List Char}
    (h : ∀ c ∈ ds, p c = true) : ds.dropWhile p = [] := by
  have := dropWhile_append_all (p := p) ([] : List Char) h
  simpa using this

theorem jsWsB_eq_false_of_isDigitB {c : Char} (h : isDigitB c = true) : jsWsB c = false := by
  simp only [jsWsB, Bool.or_eq_false_iff, decide_eq_false_iff_not]
  refine ⟨⟨⟨?_, ?_⟩, ?_⟩, ?_⟩ <;> rintro rfl <;> simp [isDigitB] at h

theorem ne_of_isDigitB {c d : Char} (h : isDigitB c = true) (hd : isDigitB d = false) :
    c ≠ d := by
  rintro rfl; rw [h] at hd; cases hd

theorem splitSign_cons_of_ne {c : Char} (r : List Char) (h1 : c ≠ '-') (h2 : c ≠ '+') :
    splitSign (c :: r) = (false, c :: r) := by
  rw [splitSign.eq_def]
  split
  · rename_i heq; injection heq with hc _; exact absurd hc h1
  · rename_i heq; injection heq with hc _; exact absurd hc h2
  · rfl

theorem take8_ne_infinity {c : Char} {rest : List Char} (h : isDigitB c = true) :
    ¬((c :: rest).take 8 = ['I', 'n', 'f', 'i', 'n', 'i', 't', 'y']) := by
  simp only [List.take_succ_cons, List.cons.injEq]
  rintro ⟨rfl, -⟩
  simp [isDigitB] at h

theorem afterSign_eval_int (neg : Bool) {ds : List Char}
    (hds : ∀ c ∈ ds, isDigitB c = true) (hne : ds ≠ []) :
    jsParseFloatAfterSign neg ds = .fin ((if neg then -1 else 1) * (charsToNat ds : ℚ)) := by
  match ds, hne with
  | c :: rest, _ =>
    rw [jsParseFloatAfterSign, if_neg (take8_ne_infinity (hds c (by simp)))]
    have h1 : (c :: rest).takeWhile isDigitB = c :: rest := takeWhile_eq_self_of_all hds
    have h2 : (c :: rest).dropWhile isDigitB = [] := dropWhile_eq_nil_of_all hds
    rw [h1, h2]
    simp only [List.isEmpty_cons, Bool.false_and, Bool.false_eq_true, if_false]
    have hz : ((10 : ℚ) ^ (0 : ℤ)) = 1 := zpow_zero 10
    simp only [charsToNat, List.foldl_nil, List.length_nil, pow_zero, Nat.cast_zero, hz]
    norm_num

theorem afterSign_eval_frac (neg : Bool) {ds fr : List Char}
    (hds : ∀ c ∈ ds, isDigitB c = true) (hne : ds ≠ [])
    (hfr : ∀ c ∈ fr, isDigitB c = true) :
    jsParseFloatAfterSign neg (ds ++ '.' :: fr) =
      .fin ((if neg then -1 else 1) *
        ((charsToNat ds : ℚ) + (charsToNat fr : ℚ) / 10 ^ fr.length)) := by
  match ds, hne with
  | c :: rest, _ =>
    rw [jsParseFloatAfterSign,
      if_neg (by rw [List.cons_append]; exact take8_ne_infinity (hds c (by simp)))]
    have h1 : ((c :: rest) ++ '.' :: fr).takeWhile isDigitB = c :: rest := by
      rw [takeWhile_append_all _ hds, List.takeWhile_cons_of_neg (by decide), List.append_nil]
    have h2 : ((c :: rest) ++ '.' :: fr).dropWhile isDigitB = '.' :: fr := by
      rw [dropWhile_append_all _ hds, List.dropWhile_cons_of_neg (by decide)]
    rw [h1, h2]
    simp only [List.isEmpty_cons, Bool.false_and, Bool.false_eq_true, if_false]
    rw [takeWhile_eq_self_of_all hfr, dropWhile_eq_nil_of_all hfr]
    have hz : ((10 : ℚ) ^ (0 : ℤ)) = 1 := zpow_zero 10
    simp only [hz]
    norm_num

theorem decToChars_not_ws {m : Int} {e : Nat} : ∀ c ∈ decToChars m e, jsWsB c = false := by
  intro c hc
  rcases decToChars_charset c hc with h | h | h
  · exact jsWsB_eq_false_of_isDigitB h
  · rw [h]; decide
  · rw [h]; decide

theorem charsToNat_fds {f e : Nat} (hf : f < 10 ^ e)
    (hne : ¬(dropTrailingZeros (padZeros e (natToChars f))).isEmpty = true) :
    (charsToNat (dropTrailingZeros (padZeros e (natToChars f))) : ℚ) /
        10 ^ (dropTrailingZeros (padZeros e (natToChars f))).length =
      (f : ℚ) / 10 ^ e := by
  have he : 1 ≤ e := by
    by_contra h0
    have he0 : e = 0 := by omega
    subst he0
    have hf0 : f = 0 := by omega
    subst hf0
    exact hne (by decide)
  rw [fracVal_dropTrailingZeros, charsToNat_padZeros, charsToNat_natToChars,
    padZeros_length (natToChars_length_le hf he)]

theorem combine_nonneg {m : Int} (e : Nat) (hm : ¬m < 0) :
    ((m.natAbs / 10 ^ e : ℕ) : ℚ) + ((m.natAbs % 10 ^ e : ℕ) : ℚ) / 10 ^ e = decVal m e := by
  have h10 : ((10 : ℚ) ^ e) ≠ 0 := by positivity
  have hs : (m.natAbs : ℚ) = 10 ^ e * ((m.natAbs / 10 ^ e : ℕ) : ℚ) +
      ((m.natAbs % 10 ^ e : ℕ) : ℚ) := by
    exact_mod_cast (Nat.div_add_mod m.natAbs (10 ^ e)).symm
  have habs : (m : ℚ) = (m.natAbs : ℚ) := by
    rw [Int.cast_natAbs]
    simp [abs_of_nonneg (show (0 : ℚ) ≤ (m : ℚ) by exact_mod_cast not_lt.1 hm)]
  unfold decVal
  rw [habs, hs]
  field_simp
  ring

theorem combine_neg {m : Int} (e : Nat) (hm : m < 0) :
    (-1 : ℚ) * (((m.natAbs / 10 ^ e : ℕ) : ℚ) + ((m.natAbs % 10 ^ e : ℕ) : ℚ) / 10 ^ e) =
      decVal m e := by
  have h10 : ((10 : ℚ) ^ e) ≠ 0 := by positivity
  have hs : (m.natAbs : ℚ) = 10 ^ e * ((m.natAbs / 10 ^ e : ℕ) : ℚ) +
      ((m.natAbs % 10 ^ e : ℕ) : ℚ) := by
    exact_mod_cast (Nat.div_add_mod m.natAbs (10 ^ e)).symm
  have habs : (m : ℚ) = -(m.natAbs : ℚ) := by
    rw [Int.cast_natAbs]
    simp [abs_of_neg (show (m : ℚ) < 0 by exact_mod_cast hm)]
  unfold decVal
  rw [habs, hs]
  field_simp
  ring

theorem jsParseFloatChars_decToChars (m : Int) (e : Nat) :
    jsParseFloatChars (decToChars m e) = .fin (decVal m e) := by
  have hmod : m.natAbs % 10 ^ e < 10 ^ e := Nat.mod_lt _ (by positivity)
  unfold jsParseFloatChars
  rw [dropWhile_eq_self_of_all decToChars_not_ws, decToChars_eq]
  by_cases hfds : (dropTrailingZeros (padZeros e (natToChars (m.natAbs % 10 ^ e)))).isEmpty = true
  · -- no fractional part: the value is the integer part, and f = 0
    have hf0 : m.natAbs % 10 ^ e = 0 := by
      have := charsToNat_eq_zero_of_dropTrailingZeros_nil (List.isEmpty_iff.1 hfds)
      rwa [charsToNat_padZeros, charsToNat_natToChars] at this
    rw [if_pos hfds, List.append_nil]
    obtain ⟨c, rest, hcr⟩ := List.exists_cons_of_ne_nil (natToChars_ne_nil (m.natAbs / 10 ^ e))
    have hds := natToChars_digits (m.natAbs / 10 ^ e)
    by_cases hm : m < 0
    · rw [if_pos hm]
      rw [List.singleton_append, show splitSign ('-' :: natToChars (m.natAbs / 10 ^ e)) =
        (true, natToChars (m.natAbs / 10 ^ e)) from rfl]
      rw [afterSign_eval_int true hds (natToChars_ne_nil _), charsToNat_natToChars]
      congr 1
      have hc := combine_neg (m := m) e hm
      simp only [hf0, Nat.cast_zero, zero_div, add_zero] at hc
      simpa using hc
    · rw [if_neg hm, List.nil_append]
      have hc0 : isDigitB c = true := hds c (hcr ▸ by simp)
      rw [hcr, splitSign_cons_of_ne _ (ne_of_isDigitB hc0 (by decide))
        (ne_of_isDigitB hc0 (by decide)), ← hcr]
      rw [afterSign_eval_int false hds (natToChars_ne_nil _), charsToNat_natToChars]
      congr 1
      have hc := combine_nonneg (m := m) e hm
      simp only [hf0, Nat.cast_zero, zero_div, add_zero] at hc
      simpa using hc
  · -- fractional part present
    rw [if_neg hfds]
    obtain ⟨c, rest, hcr⟩ := List.exists_cons_of_ne_nil (natToChars_ne_nil (m.natAbs / 10 ^ e))
    have hds := natToChars_digits (m.natAbs / 10 ^ e)
    have hfrd : ∀ x ∈ dropTrailingZeros (padZeros e (natToChars (m.natAbs % 10 ^ e))),
        isDigitB x = true :=
      fun x hx => padZeros_digits (natToChars_digits _) x (dropTrailingZeros_subset _ hx)
    have hval := charsToNat_fds hmod hfds
    by_cases hm : m < 0
    · rw [if_pos hm, List.singleton_append, List.cons_append,
        show ∀ t, splitSign ('-' :: t) = (true, t) from fun _ => rfl]
      rw [afterSign_eval_frac true hds (natToChars_ne_nil _) hfrd, charsToNat_natToChars, hval]
      congr 1
      simpa using combine_neg (m := m) e hm
    · rw [if_neg hm, List.nil_append]
      have hc0 : isDigitB c = true := hds c (hcr ▸ by simp)
      rw [hcr, List.cons_append, splitSign_cons_of_ne _ (ne_of_isDigitB hc0 (by decide))
        (ne_of_isDigitB hc0 (by decide)), ← List.cons_append, ← hcr]
      rw [afterSign_eval_frac false hds (natToChars_ne_nil _) hfrd, charsToNat_natToChars, hval]
      congr 1
      simpa using combine_nonneg (m := m) e hm

theorem jsParseFloat_decToString (m : Int) (e : Nat) :
    jsParseFloat (decToString m e) = .fin (decVal m e) :=
  jsParseFloatChars_decToChars m e

/-! ## Helper lemmas: the CSV scanner on clean input -/

theorem scan_comma (rest : List Char) (f : List Char) (r : List String)
    (recs : List (List String)) :
    csvScanAux (',' :: rest) .plain f r recs =
      csvScanAux rest .plain [] (r ++ [⟨trimChars f⟩]) recs := rfl

theorem scan_nl (rest : List Char) (f : List Char) (r : List String)
    (recs : List (List String)) :
    csvScanAux ('\n' :: rest) .plain f r recs =
      if f.isEmpty && r.isEmpty then csvScanAux rest .plain [] [] recs
      else csvScanAux rest .plain [] [] (recs ++ [r ++ [⟨trimChars f⟩]]) := rfl

theorem scan_eof (f : List Char) (r : List String) (recs : List (List String)) :
    csvScanAux [] .plain f r recs =
      if f.isEmpty && r.isEmpty then .ok recs else .ok (recs ++ [r ++ [⟨trimChars f⟩]]) := rfl

theorem scan_plain_char {c : Char} (hc : ¬(c = ',' ∨ c = '"' ∨ c = '\n'))
    (rest : List Char) (f : List Char) (r : List String) (recs : List (List String)) :
    csvScanAux (c :: rest) .plain f r recs = csvScanAux rest .plain (f ++ [c]) r recs := by
  rw [csvScanAux.eq_def]
  split
  all_goals first | rfl | simp_all

theorem scan_clean_run {cs : List Char} (h : ∀ c ∈ cs, ¬(c = ',' ∨ c = '"' ∨ c = '\n'))
    (rest : List Char) (f : List Char) (r : List String) (recs : List (List String)) :
    csvScanAux (cs ++ rest) .plain f r recs = csvScanAux rest .plain (f ++ cs) r recs := by
  induction cs generalizing f with
  | nil => simp
  | cons c t ih =>
    rw [List.cons_append, scan_plain_char (h c (by simp)), ih (fun x hx => h x (by simp [hx]))]
    simp [List.append_assoc]

theorem string_eta (s : String) : (⟨s.data⟩ : String) = s := rfl

/-- Scanning one clean `a,b` line followed by a LF and more input
appends the record `[a, b]` and continues; at end of input it finishes
with that record. -/
theorem scan_line_pair {a b : List Char}
    (ha : ∀ c ∈ a, ¬(c = ',' ∨ c = '"' ∨ c = '\n')) (hta : trimChars a = a)
    (hb : ∀ c ∈ b, ¬(c = ',' ∨ c = '"' ∨ c = '\n')) (htb : trimChars b = b)
    (hbne : b ≠ []) :
    (∀ rest recs, csvScanAux (a ++ ',' :: (b ++ '\n' :: rest)) .plain [] [] recs =
        csvScanAux rest .plain [] [] (recs ++ [[⟨a⟩, ⟨b⟩]])) ∧
    (∀ recs, csvScanAux (a ++ ',' :: b) .plain [] [] recs = .ok (recs ++ [[⟨a⟩, ⟨b⟩]])) := by
  constructor
  · intro rest recs
    rw [scan_clean_run ha, List.nil_append, scan_comma, List.nil_append, hta,
      scan_clean_run hb, List.nil_append, scan_nl, if_neg (by simp [hbne]), htb]
    simp
  · intro recs
    rw [scan_clean_run ha, List.nil_append, scan_comma, List.nil_append, hta,
      ← List.append_nil b, scan_clean_run hb, List.nil_append, scan_eof,
      if_neg (by simp [hbne])]
    rw [List.append_nil b, htb]
    simp

/-- Scanning the LF-joined clean two-field lines yields exactly the
corresponding records. -/
theorem scan_lines (ps : List (String × String))
    (hps : ∀ p ∈ ps,
      (∀ c ∈ p.1.data, ¬(c = ',' ∨ c = '"' ∨ c = '\n')) ∧ trimChars p.1.data = p.1.data ∧
      (∀ c ∈ p.2.data, ¬(c = ',' ∨ c = '"' ∨ c = '\n')) ∧ trimChars p.2.data = p.2.data ∧
      p.2.data ≠ []) :
    ∀ recs, csvScanAux (joinNl (ps.map (fun p => p.1 ++ "," ++ p.2))).data .plain [] [] recs =
      .ok (recs ++ ps.map (fun p => [p.1, p.2])) := by
  induction ps with
  | nil => intro recs; simp [joinNl, csvScanAux]
  | cons p t ih =>
    intro recs
    obtain ⟨h1, h2, h3, h4, h5⟩ := hps p (by simp)
    have hdata : (p.1 ++ "," ++ p.2).data = p.1.data ++ ',' :: p.2.data := by
      simp [String.data_append]
    match t with
    | [] =>
      rw [List.map_cons, List.map_nil]
      show csvScanAux (p.1 ++ "," ++ p.2).data .plain [] [] recs = _
      rw [hdata, (scan_line_pair h1 h2 h3 h4 h5).2 recs, string_eta, string_eta]
      simp
    | q :: t' =>
      rw [List.map_cons]
      have hjoin : joinNl ((p.1 ++ "," ++ p.2) :: (q :: t').map (fun p => p.1 ++ "," ++ p.2)) =
          (p.1 ++ "," ++ p.2) ++ "\n" ++ joinNl ((q :: t').map (fun p => p.1 ++ "," ++ p.2)) := by
        rw [List.map_cons]
        rfl
      rw [hjoin]
      have hdata2 : ((p.1 ++ "," ++ p.2) ++ "\n" ++
          joinNl ((q :: t').map (fun p => p.1 ++ "," ++ p.2))).data =
          p.1.data ++ ',' :: (p.2.data ++ '\n' ::
            (joinNl ((q :: t').map (fun p => p.1 ++ "," ++ p.2))).data) := by
        simp [String.data_append]
      rw [hdata2, (scan_line_pair h1 h2 h3 h4 h5).1 _ recs, string_eta, string_eta,
        ih (fun x hx => hps x (by simp [hx]))]
      simp

/-! ## Helper lemmas: the exported CSV and its parse -/

theorem jsIncludes_eq_false {s : String} {c : Char} (h : ∀ x ∈ s.data, x ≠ c) :
    jsIncludes s c = false := by
  unfold jsIncludes
  by_contra hcon
  have hc : s.data.contains c = true := by simpa using hcon
  have hm : c ∈ s.data := List.elem_iff.1 hc
  exact h c hm rfl

theorem renderCell_str_clean {t : String}
    (h1 : ∀ x ∈ t.data, ¬(x = ',' ∨ x = '"' ∨ x = '\n' ∨ x = '\r')) :
    renderCell (some (.str t)) = t := by
  simp only [renderCell]
  rw [jsIncludes_eq_false (fun x hx he => (h1 x hx) (Or.inl he)),
    jsIncludes_eq_false (fun x hx he => (h1 x hx) (Or.inr (Or.inl he)))]
  rfl

theorem decToChars_not_special {m : Int} {e : Nat} :
    ∀ c ∈ decToChars m e, ¬(c = ',' ∨ c = '"' ∨ c = '\n') := by
  intro c hc hor
  rcases decToChars_charset c hc with h | h | h
  · rcases hor with h' | h' | h' <;> (subst h'; simp [isDigitB] at h)
  · subst h; rcases hor with h' | h' | h' <;> exact absurd h' (by decide)
  · subst h; rcases hor with h' | h' | h' <;> exact absurd h' (by decide)

theorem decToChars_trim {m : Int} {e : Nat} : trimChars (decToChars m e) = decToChars m e := by
  apply trimChars_eq_self
  intro c hc
  rcases decToChars_charset c hc with h | h | h
  · have := jsWsB_eq_false_of_isDigitB h
    simp only [jsWsB, trimWsB, Bool.or_eq_false_iff] at this ⊢
    exact ⟨this.1.1.1, this.1.1.2⟩
  · rw [h]; decide
  · rw [h]; decide

theorem exportDataCsv_eq (rows : List ExportRow) (hts : ∀ r ∈ rows, cleanTs r.ts) :
    exportDataCsv rows = joinNl (("timestamp,consumption") ::
      rows.map (fun r => r.ts ++ "," ++ decToString r.m r.e)) := by
  unfold exportDataCsv recordsToCsv
  congr 1
  congr 1
  rw [List.map_map]
  refine List.map_congr_left ?_
  intro r hr
  show joinComma [renderCell (recLookup (exportRowObj r) ("timestamp")),
    renderCell (recLookup (exportRowObj r) ("consumption"))] = _
  have hl1 : recLookup (exportRowObj r) ("timestamp") = some (.str r.ts) := rfl
  have hl2 : recLookup (exportRowObj r) ("consumption") = some (.num r.m r.e) := rfl
  rw [hl1, hl2, renderCell_str_clean ((hts r hr).1)]
  rfl

theorem csvRows_of_scan {s : String} {hdr : List String} {data : List (List String)}
    (h : csvScan s = .ok (hdr :: data))
    (hall : data.all (fun row => row.length = hdr.length) = true) :
    csvRows s = .ok (data.map (fun row => hdr.zip row)) := by
  unfold csvRows
  rw [h]
  dsimp only
  rw [if_pos hall]

theorem csvRows_export (rows : List ExportRow) (hts : ∀ r ∈ rows, cleanTs r.ts) :
    csvRows (exportDataCsv rows) = .ok (rows.map (fun r =>
      [(("timestamp"), r.ts), (("consumption"), decToString r.m r.e)])) := by
  have hscan := scan_lines ((("timestamp"), ("consumption")) ::
      rows.map (fun r => (r.ts, decToString r.m r.e)))
    (by
      intro p hp
      rcases List.mem_cons.1 hp with hp | hp
      · subst hp; decide
      · obtain ⟨r, hr, hpr⟩ := List.mem_map.1 hp
        subst hpr
        obtain ⟨hcl, htr⟩ := hts r hr
        refine ⟨?_, htr, decToChars_not_special, decToChars_trim, decToChars_ne_nil r.m r.e⟩
        intro c hc hor
        exact hcl c hc (hor.imp id (Or.imp id Or.inl)))
    []
  have hmapline : ((("timestamp"), ("consumption")) ::
        rows.map (fun r => (r.ts, decToString r.m r.e))).map (fun p => p.1 ++ "," ++ p.2) =
      ("timestamp,consumption") :: rows.map (fun r => r.ts ++ "," ++ decToString r.m r.e) := by
    rw [List.map_cons, List.map_map]
    rfl
  rw [hmapline] at hscan
  simp only [List.nil_append, List.map_cons, List.map_map] at hscan
  have hs2 : csvScan (exportDataCsv rows) =
      .ok ([("timestamp"), ("consumption")] ::
        rows.map (fun r => [r.ts, decToString r.m r.e])) := by
    unfold csvScan
    rw [exportDataCsv_eq rows hts]
    rw [hscan]
    rfl
  rw [csvRows_of_scan hs2 (by simp)]
  rw [List.map_map]
  rfl

theorem filterMap_eq_map_of_mem {α β : Type} {l : List α} {f : α → Option β} {g : α → β}
    (h : ∀ x ∈ l, f x = some (g x)) : l.filterMap f = l.map g := by
  induction l with
  | nil => rfl
  | cons a t ih =>
    rw [List.filterMap_cons, h a (by simp), List.map_cons, ih (fun x hx => h x (by simp [hx]))]

/-- C4: parsing the CSV produced by the data exporter for a
reading-store snapshot yields exactly the snapshot's (timestamp,
consumption) pairs, row for row and in the same order; in particular an
ascending-by-timestamp snapshot parses back in ascending-by-timestamp
order.  The timestamps are assumed inert for the CSV layer (no
delimiter or quote characters, trim-stable) and fixed by the dayjs
normalisation, which holds of the UTC ISO-8601 strings the store
keeps. -/
theorem c4_export_roundtrip (normTs : String → String) (rows : List ExportRow)
    (hts : ∀ r ∈ rows, cleanTs r.ts)
    (hnorm : ∀ r ∈ rows, normTs r.ts = r.ts) :
    parseCsv normTs (exportDataCsv rows) = .ok (rows.map roundTripRecord) ∧
    (List.Pairwise (fun a b : ExportRow => a.ts ≤ b.ts) rows →
      List.Pairwise (fun a b : IngestRecord => a.timestamp ≤ b.timestamp)
        (rows.map roundTripRecord)) := by
  constructor
  · unfold parseCsv
    rw [csvRows_export rows hts]
    simp only [Except.map]
    congr 1
    rw [List.filterMap_map]
    refine filterMap_eq_map_of_mem ?_
    intro r hr
    have hL1 : lookupD [(("timestamp"), r.ts), (("consumption"), decToString r.m r.e)]
        ("timestamp") = r.ts := rfl
    have hL2 : lookupD [(("timestamp"), r.ts), (("consumption"), decToString r.m r.e)]
        ("consumption") = decToString r.m r.e := rfl
    show parseRow normTs [(("timestamp"), r.ts), (("consumption"), decToString r.m r.e)] = _
    unfold parseRow
    rw [hL1, hL2, hnorm r hr, jsParseFloat_decToString, if_neg (by simp)]
    rfl
  · intro hsorted
    exact List.Pairwise.map _ (fun a b hab => hab) hsorted

/-! ## Helper lemmas: aggregation -/

theorem round2_zero : round2 0 = 0 := by
  unfold round2
  norm_num

theorem round2R_zero : round2R 0 = 0 := by
  unfold round2R
  norm_num

theorem le_foldl_max {α : Type} [LinearOrder α] (l : List α) (a : α) : a ≤ l.foldl max a := by
  induction l generalizing a with
  | nil => exact le_refl a
  | cons x t ih => exact le_trans (le_max_left a x) (ih (max a x))

theorem mem_le_foldl_max {α : Type} [LinearOrder α] {x : α} {l : List α} (a : α) (h : x ∈ l) :
    x ≤ l.foldl max a := by
  induction l generalizing a with
  | nil => cases h
  | cons y t ih =>
    rcases List.mem_cons.1 h with rfl | h'
    · exact le_trans (le_max_right a x) (le_foldl_max t (max a x))
    · exact ih (max a y) h'

theorem foldl_max_le {α : Type} [LinearOrder α] {l : List α} {a c : α} (ha : a ≤ c)
    (h : ∀ x ∈ l, x ≤ c) : l.foldl max a ≤ c := by
  induction l generalizing a with
  | nil => exact ha
  | cons x t ih =>
    exact ih (max_le ha (h x (by simp))) (fun y hy => h y (by simp [hy]))

theorem peakLe_refl (a : Reading) : peakLe a a := Or.inr ⟨rfl, le_refl _⟩

theorem peakLe_trans {a b c : Reading} (h1 : peakLe a b) (h2 : peakLe b c) : peakLe a c := by
  rcases h1 with h1 | ⟨h1, h1t⟩ <;> rcases h2 with h2 | ⟨h2, h2t⟩
  · exact Or.inl (lt_trans h1 h2)
  · exact Or.inl (h2 ▸ h1)
  · exact Or.inl (h1 ▸ h2)
  · exact Or.inr ⟨h1.trans h2, h1t.trans h2t⟩

theorem peakLe_peakPick_left (a b : Reading) : peakLe a (peakPick a b) := by
  unfold peakPick
  split
  · rename_i h
    rcases h with h | ⟨h, ht⟩
    · exact Or.inl h
    · exact Or.inr ⟨h.symm, le_of_lt ht⟩
  · exact peakLe_refl a

theorem peakLe_peakPick_right (a b : Reading) : peakLe b (peakPick a b) := by
  unfold peakPick
  split
  · exact peakLe_refl b
  · rename_i h
    push_neg at h
    obtain ⟨h1, h2⟩ := h
    rcases lt_or_eq_of_le h1 with h | h
    · exact Or.inl h
    · exact Or.inr ⟨h, h2 h⟩

theorem peakPick_eq_or (a b : Reading) : peakPick a b = a ∨ peakPick a b = b := by
  unfold peakPick
  split
  · exact Or.inr rfl
  · exact Or.inl rfl

theorem foldl_peakPick (t : List Reading) (a : Reading) :
    (t.foldl peakPick a = a ∨ t.foldl peakPick a ∈ t) ∧
    peakLe a (t.foldl peakPick a) ∧ ∀ r ∈ t, peakLe r (t.foldl peakPick a) := by
  induction t generalizing a with
  | nil => exact ⟨Or.inl rfl, peakLe_refl a, by simp⟩
  | cons b t ih =>
    obtain ⟨hmem, hle, hall⟩ := ih (peakPick a b)
    refine ⟨?_, ?_, ?_⟩
    · rcases hmem with h | h
      · rcases peakPick_eq_or a b with h' | h'
        · exact Or.inl (by rw [List.foldl_cons, h, h'])
        · exact Or.inr (by rw [List.foldl_cons, h, h']; simp)
      · exact Or.inr (by simp [List.foldl_cons, h])
    · exact peakLe_trans (peakLe_peakPick_left a b) hle
    · intro r hr
      rcases List.mem_cons.1 hr with rfl | hr'
      · exact peakLe_trans (peakLe_peakPick_right a r) hle
      · exact hall r hr'

theorem peakLe_consumption {a b : Reading} (h : peakLe a b) : a.consumption ≤ b.consumption := by
  rcases h with h | ⟨h, _⟩
  · exact le_of_lt h
  · exact le_of_eq h

/-- C6: on an empty reading store, `GET /metrics` reports
`count_points = 0`, zero for every consumption figure and a null peak
timestamp, and `GET /metrics/summary` reports null timestamp bounds,
zero min/max/stddev and zero days of data. -/
theorem c6_empty_store_aggregates :
    getMetrics [] = ⟨0, 0, 0, 0, none⟩ ∧
    getMetricsSummary [] = ⟨none, none, 0, 0, 0, 0⟩ := by
  constructor
  · unfold getMetrics aggMetricsSql
    simp [consumptions, sqlMaxQ, peakRow, round2_zero]
  · unfold getMetricsSummary
    simp [sqlMinTs, sqlMaxTs, sqlMinQ, sqlMaxQ, consumptions, sqlStddev, round2R_zero]

/-- C3: on a non-empty store the aggregate row of `GET /metrics` has
`peak_consumption` equal to the maximum stored consumption, and
`peak_timestamp` the timestamp of an actual row attaining it — the most
recent such row when several share the maximum. -/
theorem c3_peak_consumption (store : List Reading) (hne : store ≠ []) :
    ∃ r ∈ store,
      (aggMetricsSql store).peak_consumption = r.consumption ∧
      (aggMetricsSql store).peak_timestamp = some r.ts ∧
      (∀ s ∈ store, s.consumption ≤ r.consumption) ∧
      (∀ s ∈ store, s.consumption = r.consumption → s.ts ≤ r.ts) := by
  match store, hne with
  | h :: t, _ =>
    obtain ⟨hmem, hle, hall⟩ := foldl_peakPick t h
    have hmemstore : t.foldl peakPick h ∈ h :: t := by
      rcases hmem with h' | h'
      · rw [h']; simp
      · simp [h']
    have hcle : ∀ s ∈ h :: t, s.consumption ≤ (t.foldl peakPick h).consumption := by
      intro s hs
      rcases List.mem_cons.1 hs with rfl | hs'
      · exact peakLe_consumption hle
      · exact peakLe_consumption (hall s hs')
    refine ⟨t.foldl peakPick h, hmemstore, ?_, ?_, hcle, ?_⟩
    · show (sqlMaxQ (consumptions (h :: t))).getD 0 = _
      unfold consumptions sqlMaxQ
      simp only [List.map_cons, Option.getD_some]
      apply le_antisymm
      · apply foldl_max_le (peakLe_consumption hle)
        intro x hx
        obtain ⟨r, hr, rfl⟩ := List.mem_map.1 hx
        exact peakLe_consumption (hall r hr)
      · rcases hmem with h' | h'
        · rw [h']; exact le_foldl_max _ _
        · exact mem_le_foldl_max _ (List.mem_map_of_mem _ h')
    · rfl
    · intro s hs hsc
      have hps : peakLe s (t.foldl peakPick h) := by
        rcases List.mem_cons.1 hs with rfl | hs'
        · exact hle
        · exact hall s hs'
      rcases hps with h' | ⟨_, h'⟩
      · exact absurd hsc (ne_of_lt h')
      · exact h'

/-- Witness for C3 at a concrete three-row store with a tied maximum. -/
theorem c3_peak_consumption_witness :
    ([⟨1, 100, 5⟩, ⟨2, 200, 7⟩, ⟨3, 300, 7⟩] : List Reading) ≠ [] ∧
    ∃ r ∈ ([⟨1, 100, 5⟩, ⟨2, 200, 7⟩, ⟨3, 300, 7⟩] : List Reading),
      (aggMetricsSql [⟨1, 100, 5⟩, ⟨2, 200, 7⟩, ⟨3, 300, 7⟩]).peak_consumption = r.consumption ∧
      (aggMetricsSql [⟨1, 100, 5⟩, ⟨2, 200, 7⟩, ⟨3, 300, 7⟩]).peak_timestamp = some r.ts ∧
      (∀ s ∈ ([⟨1, 100, 5⟩, ⟨2, 200, 7⟩, ⟨3, 300, 7⟩] : List Reading),
        s.consumption ≤ r.consumption) ∧
      (∀ s ∈ ([⟨1, 100, 5⟩, ⟨2, 200, 7⟩, ⟨3, 300, 7⟩] : List Reading),
        s.consumption = r.consumption → s.ts ≤ r.ts) :=
  ⟨by decide, c3_peak_consumption _ (by decide)⟩

/-! ## Helper lemmas: pagination arithmetic -/

theorem nat_ceil_formula {t l : Nat} (hl : 1 ≤ l) :
    (((t + l - 1) / l : ℕ) : ℤ) = ⌈(t : ℚ) / (l : ℚ)⌉ := by
  have hlq : (0 : ℚ) < (l : ℚ) := by exact_mod_cast hl
  rcases Nat.eq_zero_or_pos t with rfl | ht
  · rw [Nat.zero_add, Nat.div_eq_of_lt (by omega)]
    simp
  · symm
    rw [Int.ceil_eq_iff]
    generalize hq : (t + l - 1) / l = q
    have hdm := Nat.div_add_mod (t + l - 1) l
    rw [hq] at hdm
    have hm : (t + l - 1) % l < l := Nat.mod_lt _ (by omega)
    have hA : t ≤ l * q := by omega
    have hB : l * q < t + l := by omega
    constructor
    · have hBq : (l : ℚ) * (q : ℚ) < (t : ℚ) + (l : ℚ) := by exact_mod_cast hB
      rw [lt_div_iff₀ hlq]
      have hcast : (((q : ℕ) : ℤ) : ℚ) = (q : ℚ) := by push_cast; rfl
      rw [hcast]
      nlinarith [hBq]
    · have hAq : (t : ℚ) ≤ (l : ℚ) * (q : ℚ) := by exact_mod_cast hA
      rw [div_le_iff₀ hlq]
      have hcast : (((q : ℕ) : ℤ) : ℚ) = (q : ℚ) := by push_cast; rfl
      rw [hcast]
      nlinarith [hAq]

theorem totalPages_mul_ge {t l : Nat} (hl : 1 ≤ l) : t ≤ ((t + l - 1) / l) * l := by
  generalize hq : (t + l - 1) / l = q
  have hdm := Nat.div_add_mod (t + l - 1) l
  rw [hq] at hdm
  have hm : (t + l - 1) % l < l := Nat.mod_lt _ (by omega)
  have hc : l * q = q * l := Nat.mul_comm _ _
  omega

theorem resolved_page_ge_one (pageQ : Option String) :
    1 ≤ (match jsParseInt pageQ with
      | none => (1 : ℤ)
      | some p => if p = 0 then 1 else if p < 1 then 1 else p) := by
  cases jsParseInt pageQ with
  | none => norm_num
  | some p =>
    by_cases h0 : p = 0
    · simp [h0]
    · simp only [h0, if_false]
      by_cases h1 : p < 1
      · simp [h1]
      · simp only [h1, if_false]; omega

theorem getData_spec (store : List Reading) (fromQ toQ : Option Nat) (limitQ pageQ : Option String)
    {L : ℤ}
    (hres : (match jsParseInt limitQ with
      | none => (100 : ℤ)
      | some n => if n = 0 then 100 else n) = L)
    (hL1 : 1 ≤ L) (hL2 : L ≤ 10000) :
    ∃ resp, getData store fromQ toQ limitQ pageQ = .ok resp ∧
      resp.limit = L ∧ 1 ≤ resp.page ∧
      resp.total = (filterRange store fromQ toQ).length ∧
      resp.totalPages = (resp.total + L.toNat - 1) / L.toNat ∧
      resp.data = (((filterRange store fromQ toQ).insertionSort tsDesc).drop
        (((resp.page - 1) * L).toNat)).take L.toNat := by
  simp only [getData]
  rw [hres, if_neg (by omega)]
  exact ⟨_, rfl, rfl, resolved_page_ge_one pageQ, rfl, rfl, rfl⟩

/-- C5: with a valid `limit` (an integer in 1..10000, or absent and
defaulting to 100) `GET /data` succeeds, reports `total` as the number
of rows matching the range filter and `totalPages` as the exact ceiling
of `total / limit`, and a requested page beyond `totalPages` yields an
empty `data` array rather than an error. -/
theorem c5_pagination (store : List Reading) (fromQ toQ : Option Nat)
    (limitQ pageQ : Option String)
    (hl : (∃ n : ℤ, jsParseInt limitQ = some n ∧ 1 ≤ n ∧ n ≤ 10000) ∨ limitQ = none) :
    ∃ resp, getData store fromQ toQ limitQ pageQ = .ok resp ∧
      resp.total = (filterRange store fromQ toQ).length ∧
      (resp.totalPages : ℤ) = ⌈(resp.total : ℚ) / (resp.limit : ℚ)⌉ ∧
      (limitQ = none → resp.limit = 100) ∧
      ((resp.totalPages : ℤ) < resp.page → resp.data = []) := by
  have hLex : ∃ L : ℤ, (match jsParseInt limitQ with
      | none => (100 : ℤ)
      | some n => if n = 0 then 100 else n) = L ∧ 1 ≤ L ∧ L ≤ 10000 := by
    rcases hl with ⟨n, hn, h1, h2⟩ | hnone
    · refine ⟨n, ?_, h1, h2⟩
      rw [hn]
      show (if n = 0 then (100 : ℤ) else n) = n
      rw [if_neg (by omega)]
    · exact ⟨100, by rw [hnone]; rfl, by norm_num, by norm_num⟩
  obtain ⟨L, hres, hL1, hL2⟩ := hLex
  obtain ⟨resp, hok, hlim, hpage, htot, htp, hdata⟩ :=
    getData_spec store fromQ toQ limitQ pageQ hres hL1 hL2
  have hLt : ((L.toNat : ℤ) : ℚ) = (L : ℚ) := by
    rw [Int.toNat_of_nonneg (by omega)]
  refine ⟨resp, hok, htot, ?_, ?_, ?_⟩
  · rw [htp, hlim, nat_ceil_formula (by omega)]
    congr 1
    rw [← hLt]
    push_cast
    ring
  · intro hq
    rw [hlim]
    rcases hl with ⟨n, hn, _, _⟩ | hnone
    · rw [hq] at hn
      simp [jsParseInt] at hn
    · rw [hq] at hres
      have : (100 : ℤ) = L := hres
      omega
  · intro hbeyond
    rw [hdata]
    have hlen : ((filterRange store fromQ toQ).insertionSort tsDesc).length =
        (filterRange store fromQ toQ).length :=
      (List.perm_insertionSort tsDesc (filterRange store fromQ toQ)).length_eq
    have hmul : resp.total ≤ resp.totalPages * L.toNat := by
      rw [htp]
      exact totalPages_mul_ge (by omega)
    have hoff : ((filterRange store fromQ toQ).insertionSort tsDesc).length ≤
        ((resp.page - 1) * L).toNat := by
      rw [hlen, ← htot]
      have h1 : ((resp.totalPages : ℤ)) * L ≤ (resp.page - 1) * L :=
        mul_le_mul_of_nonneg_right (by omega) (by omega)
      have h2 : (resp.total : ℤ) ≤ (resp.totalPages : ℤ) * L := by
        calc (resp.total : ℤ) ≤ ((resp.totalPages * L.toNat : ℕ) : ℤ) := by exact_mod_cast hmul
        _ = (resp.totalPages : ℤ) * ((L.toNat : ℕ) : ℤ) := by push_cast; ring
        _ = (resp.totalPages : ℤ) * L := by rw [Int.toNat_of_nonneg (by omega)]
      omega
    rw [List.drop_eq_nil_of_le hoff, List.take_nil]

/-- Witness for C5 at a concrete store, limit 2 and an out-of-range
page 9. -/
theorem c5_pagination_witness :
    ((∃ n : ℤ, jsParseInt (some ("2")) = some n ∧ 1 ≤ n ∧ n ≤ 10000) ∨
      (some ("2") : Option String) = none) ∧
    ∃ resp, getData [⟨1, 100, 5⟩, ⟨2, 200, 7⟩, ⟨3, 300, 7⟩] none none
        (some ("2")) (some ("9")) = .ok resp ∧
      resp.total = (filterRange [⟨1, 100, 5⟩, ⟨2, 200, 7⟩, ⟨3, 300, 7⟩] none none).length ∧
      (resp.totalPages : ℤ) = ⌈(resp.total : ℚ) / (resp.limit : ℚ)⌉ ∧
      ((some ("2") : Option String) = none → resp.limit = 100) ∧
      ((resp.totalPages : ℤ) < resp.page → resp.data = []) :=
  ⟨Or.inl ⟨2, by decide, by decide, by decide⟩,
   c5_pagination _ none none _ _ (Or.inl ⟨2, by decide, by decide, by decide⟩)⟩

/-- C9: every successful `GET /data` response lists its rows in
descending timestamp order (most recent first), while the CSV data
export lists rows in ascending timestamp order — the opposite. -/
theorem c9_data_order (store : List Reading) (fromQ toQ : Option Nat)
    (limitQ pageQ : Option String) (resp : DataResp)
    (h : getData store fromQ toQ limitQ pageQ = .ok resp) :
    List.Sorted tsDesc resp.data ∧
    ∀ elimitQ, List.Sorted tsAsc (exportDataRows store fromQ toQ elimitQ) := by
  constructor
  · simp only [getData] at h
    split at h
    · cases h
    · have hresp := Except.ok.inj h
      subst hresp
      dsimp only
      exact List.Pairwise.sublist ((List.take_sublist _ _).trans (List.drop_sublist _ _))
        (List.sorted_insertionSort tsDesc (filterRange store fromQ toQ))
  · intro elimitQ
    unfold exportDataRows
    cases jsParseInt elimitQ with
    | none => exact List.sorted_insertionSort tsAsc _
    | some n =>
      dsimp only
      split
      · exact List.Pairwise.sublist (List.take_sublist _ _) (List.sorted_insertionSort tsAsc _)
      · exact List.sorted_insertionSort tsAsc _

/-- Witness for C9 at a concrete two-row store. -/
theorem c9_data_order_witness :
    List.Sorted tsDesc (DataResp.data ⟨[⟨2, 200, 7⟩, ⟨1, 100, 5⟩], 2, 100, 1, 2, 1⟩) ∧
    ∀ elimitQ, List.Sorted tsAsc
      (exportDataRows [⟨1, 100, 5⟩, ⟨2, 200, 7⟩] none none elimitQ) :=
  c9_data_order [⟨1, 100, 5⟩, ⟨2, 200, 7⟩] none none none none
    ⟨[⟨2, 200, 7⟩, ⟨1, 100, 5⟩], 2, 100, 1, 2, 1⟩ (by decide)

/-- C10 counterexample: `limit=0` parses to the number 0, which lies
outside 1..10000, yet the request does not produce the 400 error — it
succeeds with the default limit of 100. -/
theorem c10_limit_zero_counterexample :
    jsParseInt (some ("0")) = some 0 ∧
    getData [] none none (some ("0")) none = .ok ⟨[], 0, 100, 1, 0, 0⟩ := by
  constructor
  · decide
  · decide

/-- C10 (amended): a `limit` that is absent, fails to parse, or parses
to 0 falls back to the default 100 and the request succeeds; only a
`limit` parsing to a nonzero number outside 1..10000 produces the 400
`Limit must be between 1 and 10000` response. -/
theorem c10_limit_validation (store : List Reading) (fromQ toQ : Option Nat)
    (limitQ pageQ : Option String) :
    ((jsParseInt limitQ = none ∨ jsParseInt limitQ = some 0) →
      ∃ resp, getData store fromQ toQ limitQ pageQ = .ok resp ∧ resp.limit = 100) ∧
    (∀ n : ℤ, jsParseInt limitQ = some n → n ≠ 0 → (n < 1 ∨ 10000 < n) →
      getData store fromQ toQ limitQ pageQ =
        .error ("Limit must be between 1 and 10000")) := by
  constructor
  · intro h
    have hres : (match jsParseInt limitQ with
        | none => (100 : ℤ)
        | some n => if n = 0 then 100 else n) = 100 := by
      rcases h with h | h <;> rw [h]
      show (if (0 : ℤ) = 0 then (100 : ℤ) else 0) = 100
      rw [if_pos rfl]
    obtain ⟨resp, hok, hlim, _⟩ :=
      getData_spec store fromQ toQ limitQ pageQ hres (by norm_num) (by norm_num)
    exact ⟨resp, hok, hlim⟩
  · intro n hn h0 hrange
    have hres : (match jsParseInt limitQ with
        | none => (100 : ℤ)
        | some n => if n = 0 then 100 else n) = n := by
      rw [hn]
      show (if n = 0 then (100 : ℤ) else n) = n
      rw [if_neg h0]
    simp only [getData]
    rw [hres, if_pos (by omega)]

/-- Witness for C10 at a non-numeric limit and at an oversized one. -/
theorem c10_limit_validation_witness :
    (∃ resp, getData [] none none (some ("abc")) none = .ok resp ∧ resp.limit = 100) ∧
    getData [] none none (some ("20000")) none =
      .error ("Limit must be between 1 and 10000") :=
  ⟨(c10_limit_validation [] none none (some ("abc")) none).1 (Or.inl (by decide)),
   (c10_limit_validation [] none none (some ("20000")) none).2 20000
     (by decide) (by decide) (by norm_num)⟩

/-! ## Helper lemmas: chunked insert -/

theorem chunksOfAux_flatten {α : Type} {n : Nat} (hn : 1 ≤ n) :
    ∀ fuel (l : List α), l.length ≤ fuel → (chunksOfAux n fuel l).flatten = l := by
  intro fuel
  induction fuel with
  | zero =>
    intro l hl
    match l, hl with
    | [], _ => rfl
  | succ fuel ih =>
    intro l hl
    match l with
    | [] => rfl
    | x :: xs =>
      simp only [List.length_cons] at hl
      rw [chunksOfAux, List.flatten_cons,
        ih ((x :: xs).drop n) (by rw [List.length_drop, List.length_cons]; omega),
        List.take_append_drop]

theorem chunksOf_flatten {α : Type} {n : Nat} (hn : 1 ≤ n) (l : List α) :
    (chunksOf n l).flatten = l :=
  chunksOfAux_flatten hn l.length l (le_refl _)

/-- C2: a successful upload reports `records_processed` as exactly the
number of records surviving the parse, `records_inserted` as the sum of
the per-chunk insert counts over 1000-record chunks, and — whenever the
database inserts at most the number of rows offered (the
`ON CONFLICT DO NOTHING` contract) — `records_inserted ≤
records_processed ≤` the number of non-header data rows of the file. -/
theorem c2_upload_counts (normTs : String → String) (insert : List IngestRecord → Nat)
    (s : String) (resp : UploadResp)
    (hins : ∀ b, insert b ≤ b.length)
    (h : uploadCsv normTs insert s = .ok resp) :
    ∃ rows records, csvRows s = .ok rows ∧
      parseCsv normTs s = .ok records ∧
      resp.records_processed = records.length ∧
      resp.records_inserted = ((chunksOf 1000 records).map insert).sum ∧
      resp.records_inserted ≤ resp.records_processed ∧
      resp.records_processed ≤ rows.length := by
  unfold uploadCsv at h
  cases hp : parseCsv normTs s with
  | error e => rw [hp] at h; cases h
  | ok records =>
    rw [hp] at h
    dsimp only at h
    by_cases hz : records.length = 0
    · rw [if_pos hz] at h; cases h
    · rw [if_neg hz] at h
      have hresp := Except.ok.inj h
      subst hresp
      unfold parseCsv at hp
      cases hr : csvRows s with
      | error e => rw [hr] at hp; cases hp
      | ok rows =>
        rw [hr] at hp
        simp only [Except.map] at hp
        have hrec := Except.ok.inj hp
        refine ⟨rows, records, rfl, rfl, rfl, rfl, ?_, ?_⟩
        · calc ((chunksOf 1000 records).map insert).sum
              ≤ ((chunksOf 1000 records).map List.length).sum :=
                List.sum_le_sum (fun i _ => hins i)
            _ = (chunksOf 1000 records).flatten.length := (List.length_flatten _).symm
            _ = records.length := by rw [chunksOf_flatten (by norm_num)]
        · rw [← hrec]
          exact List.length_filterMap_le _ _

/-- Witness for C2 at the spec's example file: one malformed row is
dropped, the two valid rows are processed and inserted. -/
theorem c2_upload_counts_witness :
    (∀ b : List IngestRecord, List.length b ≤ b.length) ∧
    ∃ rows records,
      csvRows ("timestamp,consumption\n2025-01-01T00:00:00Z,5\n2025-01-01T01:00:00Z,bad\n2025-01-01T02:00:00Z,7") = .ok rows ∧
      parseCsv (fun s => s) ("timestamp,consumption\n2025-01-01T00:00:00Z,5\n2025-01-01T01:00:00Z,bad\n2025-01-01T02:00:00Z,7") = .ok records ∧
      (UploadResp.records_processed ⟨2, 2⟩) = records.length ∧
      (UploadResp.records_inserted ⟨2, 2⟩) = ((chunksOf 1000 records).map List.length).sum ∧
      (UploadResp.records_inserted ⟨2, 2⟩) ≤ (UploadResp.records_processed ⟨2, 2⟩) ∧
      (UploadResp.records_processed ⟨2, 2⟩) ≤ rows.length :=
  ⟨fun b => le_refl _,
   c2_upload_counts (fun s => s) List.length _ ⟨2, 2⟩ (fun b => le_refl _) (by decide)⟩

/-- C7: a well-formed CSV in which every data row fails the consumption
check — including one with no data rows at all — parses to the empty
record sequence as an ordinary success, not an error. -/
theorem c7_all_invalid_rows (normTs : String → String) (s : String) (rows : List CsvRow)
    (h : csvRows s = .ok rows)
    (hbad : ∀ row ∈ rows, jsParseFloat (lookupD row ("consumption")) = .nan) :
    parseCsv normTs s = .ok [] := by
  unfold parseCsv
  rw [h]
  simp only [Except.map]
  congr 1
  rw [List.filterMap_eq_nil_iff]
  intro row hrow
  unfold parseRow
  rw [hbad row hrow, if_pos rfl]

/-- Witness for C7 at a one-row file whose consumption is not numeric. -/
theorem c7_all_invalid_rows_witness :
    csvRows ("timestamp,consumption\nt,oops") =
      (Except.ok [[("timestamp", "t"), ("consumption", "oops")]] :
        Except CsvErr (List CsvRow)) ∧
    (∀ row ∈ ([[("timestamp", "t"), ("consumption", "oops")]] : List CsvRow),
      jsParseFloat (lookupD row ("consumption")) = .nan) ∧
    parseCsv (fun s => s) ("timestamp,consumption\nt,oops") = .ok [] :=
  ⟨by decide, by decide,
   c7_all_invalid_rows (fun s => s) ("timestamp,consumption\nt,oops")
     [[("timestamp", "t"), ("consumption", "oops")]] (by decide) (by decide)⟩

/-- C1 counterexample: a row whose consumption field is `Infinity`
parses to a number that is not finite, yet it is kept in the output
sequence — the source only rejects NaN (`isNaN`), not non-finite
values. -/
theorem c1_infinity_counterexample :
    parseCsv (fun s => s) ("timestamp,consumption\n2025-01-01T00:00:00Z,Infinity") =
      .ok [⟨("2025-01-01T00:00:00Z"), JsNum.inf⟩] ∧
    JsNum.inf.isFinite = false := by
  constructor
  · decide
  · rfl

/-- C1 (amended): every record kept by the parse has a consumption that
parsed to a number other than NaN (finite or an infinity); a row whose
consumption parses to NaN is dropped while the rows before and after it
are still processed — the bad row never aborts the parse. -/
theorem c1_nan_rows_dropped (normTs : String → String) (s : String) (rows : List CsvRow)
    (h : csvRows s = .ok rows) :
    parseCsv normTs s = .ok (rows.filterMap (parseRow normTs)) ∧
    (∀ rec ∈ rows.filterMap (parseRow normTs), rec.consumption ≠ JsNum.nan) ∧
    (∀ pre row post, rows = pre ++ row :: post →
      jsParseFloat (lookupD row ("consumption")) = .nan →
      rows.filterMap (parseRow normTs) =
        pre.filterMap (parseRow normTs) ++ post.filterMap (parseRow normTs)) := by
  refine ⟨?_, ?_, ?_⟩
  · unfold parseCsv
    rw [h]
    rfl
  · intro rec hrec
    obtain ⟨row, _, hpr⟩ := List.mem_filterMap.1 hrec
    unfold parseRow at hpr
    by_cases hc : jsParseFloat (lookupD row ("consumption")) = .nan
    · rw [if_pos hc] at hpr; cases hpr
    · rw [if_neg hc] at hpr
      have hr := Option.some.inj hpr
      rw [← hr]
      exact hc
  · intro pre row post hsplit hnan
    rw [hsplit, List.filterMap_append, List.filterMap_cons]
    have hnone : parseRow normTs row = none := by
      unfold parseRow
      rw [hnan, if_pos rfl]
    rw [hnone]

/-- Witness for C1 (amended) at a three-row file whose middle row has a
non-numeric consumption: the parse keeps the two valid rows around it. -/
theorem c1_nan_rows_dropped_witness :
    csvRows ("timestamp,consumption\nt1,5\nt2,bad\nt3,7") =
      (Except.ok [[("timestamp", "t1"), ("consumption", "5")],
        [("timestamp", "t2"), ("consumption", "bad")],
        [("timestamp", "t3"), ("consumption", "7")]] : Except CsvErr (List CsvRow)) ∧
    jsParseFloat (lookupD [("timestamp", "t2"), ("consumption", "bad")] ("consumption")) =
      .nan ∧
    parseCsv (fun s => s) ("timestamp,consumption\nt1,5\nt2,bad\nt3,7") =
      .ok (([[("timestamp", "t1"), ("consumption", "5")],
        [("timestamp", "t2"), ("consumption", "bad")],
        [("timestamp", "t3"), ("consumption", "7")]] : List CsvRow).filterMap
          (parseRow (fun s => s))) ∧
    ([[("timestamp", "t1"), ("consumption", "5")],
      [("timestamp", "t2"), ("consumption", "bad")],
      [("timestamp", "t3"), ("consumption", "7")]] : List CsvRow).filterMap
        (parseRow (fun s => s)) =
      ([[("timestamp", "t1"), ("consumption", "5")]] : List CsvRow).filterMap
          (parseRow (fun s => s)) ++
        ([[("timestamp", "t3"), ("consumption", "7")]] : List CsvRow).filterMap
          (parseRow (fun s => s)) :=
  ⟨by decide, by decide,
   (c1_nan_rows_dropped (fun s => s) ("timestamp,consumption\nt1,5\nt2,bad\nt3,7")
     [[("timestamp", "t1"), ("consumption", "5")],
      [("timestamp", "t2"), ("consumption", "bad")],
      [("timestamp", "t3"), ("consumption", "7")]] (by decide)).1,
   (c1_nan_rows_dropped (fun s => s) ("timestamp,consumption\nt1,5\nt2,bad\nt3,7")
     [[("timestamp", "t1"), ("consumption", "5")],
      [("timestamp", "t2"), ("consumption", "bad")],
      [("timestamp", "t3"), ("consumption", "7")]] (by decide)).2.2
     [[("timestamp", "t1"), ("consumption", "5")]]
     [("timestamp", "t2"), ("consumption", "bad")]
     [[("timestamp", "t3"), ("consumption", "7")]] (by decide) (by decide)⟩

/-- C8: `recordsToCsv` escapes every cell by one uniform, column-blind
rule — a value whose raw string form contains a comma or a double-quote
is wrapped in double quotes with inner quotes doubled, and any other
value is emitted verbatim; the renderer applies that rule to every
header's cell of every record. -/
theorem c8_field_escaping (records : List RecordObj) (headers : List String) :
    (∀ v : Option Field,
      renderCell v =
        if jsIncludes (rawCell v) ',' || jsIncludes (rawCell v) '"' then
          "\"" ++ doubleQuotes (rawCell v) ++ "\""
        else rawCell v) ∧
    recordsToCsv records headers =
      joinNl (joinComma headers ::
        records.map (fun r => joinComma (headers.map (fun h => renderCell (recLookup r h))))) := by
  constructor
  · intro v
    match v with
    | none => rfl
    | some (.str t) => rfl
    | some (.num m e) =>
      have h1 : jsIncludes (decToString m e) ',' = false :=
        jsIncludes_eq_false (fun x hx he => decToChars_not_special x hx (Or.inl he))
      have h2 : jsIncludes (decToString m e) '"' = false :=
        jsIncludes_eq_false (fun x hx he => decToChars_not_special x hx (Or.inr (Or.inl he)))
      show decToString m e = _
      rw [show rawCell (some (.num m e)) = decToString m e from rfl, h1, h2]
      rfl
  · rfl

/-- Witness for C4 at a concrete two-row ascending snapshot with an
integer and a fractional consumption value. -/
theorem c4_export_roundtrip_witness :
    (∀ r ∈ ([⟨("2025-01-01T00:00:00.000Z"), 5, 0⟩, ⟨("2025-01-01T02:00:00.000Z"), 65, 1⟩] :
        List ExportRow), cleanTs r.ts) ∧
    (parseCsv (fun s => s) (exportDataCsv [⟨("2025-01-01T00:00:00.000Z"), 5, 0⟩,
        ⟨("2025-01-01T02:00:00.000Z"), 65, 1⟩]) =
      .ok (([⟨("2025-01-01T00:00:00.000Z"), 5, 0⟩, ⟨("2025-01-01T02:00:00.000Z"), 65, 1⟩] :
        List ExportRow).map roundTripRecord) ∧
      (List.Pairwise (fun a b : ExportRow => a.ts ≤ b.ts)
          ([⟨("2025-01-01T00:00:00.000Z"), 5, 0⟩, ⟨("2025-01-01T02:00:00.000Z"), 65, 1⟩] :
            List ExportRow) →
        List.Pairwise (fun a b : IngestRecord => a.timestamp ≤ b.timestamp)
          (([⟨("2025-01-01T00:00:00.000Z"), 5, 0⟩, ⟨("2025-01-01T02:00:00.000Z"), 65, 1⟩] :
            List ExportRow).map roundTripRecord))) :=
  ⟨by decide, c4_export_roundtrip (fun s => s) _ (by decide) (fun r _ => rfl)⟩

end GEP
